import Mathlib

/-!
Shallow embedding of the supermarket sales dashboard's data pipeline
(`src/app.py`): schema normalization of the raw table, the filter mask,
the detail-listing search, the aggregations (totals, daily series,
category breakdown, city breakdown) and the 7-day trend computation.

Tabular rows become Lean lists, pandas column operations become list
operations, money amounts become rationals, and timestamps become
integers (with a date-only projection).  Fallible loading is `Except`.
-/

namespace Supermarket

/-- Underlying timestamp of a record (`日期` column, datetime64).
Modelled as minutes since an epoch; only its order and its date-only
projection matter to the pipeline. -/
abbrev Timestamp := Int

/-- The `.dt.date` projection used to build the `日期_仅日期` column:
collapse a timestamp to its calendar day (floor division by minutes/day). -/
def dateOnlyOf (t : Timestamp) : Int := Int.fdiv t 1440

/-- One sales transaction row of the loaded table.  `product` is optional
because the product-name cell can be missing (pandas `NaN`), which the
search handles via `na=False`. -/
structure SalesRecord where
  date : Timestamp
  category : String
  product : Option String
  region : String
  quantity : Int
  unitPrice : ℚ
  totalAmount : ℚ
deriving DecidableEq, Repr

/-- The sidebar selections consumed by the mask at `app.py:90-96`
plus the detail-listing search keyword (`app.py:378`). -/
structure FilterCriteria where
  dateStart : Int
  dateEnd : Int
  categories : List String
  regions : List String
  searchText : String
deriving DecidableEq, Repr

/-- The boolean mask of `app.py:90-95`: date-only projection within the
inclusive range, category `isin` the selected set, region `isin` the
selected set. -/
def recordMask (c : FilterCriteria) (r : SalesRecord) : Bool :=
  decide (c.dateStart ≤ dateOnlyOf r.date) && decide (dateOnlyOf r.date ≤ c.dateEnd)
    && c.categories.contains r.category && c.regions.contains r.region

/-- Embeds `filtered_df = raw_df[mask]` (`app.py:96`). -/
def filteredDf (rows : List SalesRecord) (c : FilterCriteria) : List SalesRecord :=
  rows.filter (recordMask c)

/-- Character-wise (ASCII) lowercasing of a string.  This backs the
spec-side literal reading of the search (`strContainsCI`); the program's
own matching is delegated to the external regex engine (`ordersViewRe`),
whose `re.IGNORECASE` performs full Unicode case folding. -/
def lowerChars (s : String) : List Char := s.toList.map Char.toLower

/-- The spec's literal reading of the search condition (§4.3: "applied as a
case-insensitive substring match against the product-name field"): a
missing product name never matches, otherwise case-insensitive substring
containment.  The program's `str.contains(kw, case=False, na=False)`
(`app.py:384`) instead uses pandas' default `regex=True`, embedded in
`ordersViewRe` below; the two coincide only for keywords free of regex
metacharacters. -/
def strContainsCI (cell : Option String) (kw : String) : Bool :=
  match cell with
  | none => false
  | some s => decide (lowerChars kw <:+: lowerChars s)

/-- Embeds `filtered_df.sort_values("日期", ascending=False)` (`app.py:380`). -/
def sortByDateDesc (rows : List SalesRecord) : List SalesRecord :=
  rows.mergeSort (fun a b => decide (b.date ≤ a.date))

/-- The detail listing of `app.py:380-385` under the literal reading of the
search: the filtered view, sorted by timestamp descending, then — only when
the search keyword is non-empty (`if search_keyword:`) — restricted to rows
whose product name contains the keyword case-insensitively.  Exact for
metacharacter-free keywords; the program's general regex semantics,
including the `re.error` path, are embedded in `ordersViewRe`. -/
def ordersView (rows : List SalesRecord) (c : FilterCriteria) : List SalesRecord :=
  let sorted := sortByDateDesc (filteredDf rows c)
  if c.searchText ≠ "" then sorted.filter (fun r => strContainsCI r.product c.searchText)
  else sorted

/-! ## Aggregations (`app.py:211-343`) -/

/-- Embeds `filtered_df["总金额"].sum()` (`app.py:211`). -/
def totalSales (rows : List SalesRecord) : ℚ :=
  (rows.map (·.totalAmount)).sum

/-- Embeds `len(filtered_df)` (`app.py:212`). -/
def totalOrders (rows : List SalesRecord) : Nat := rows.length

/-- Embeds `filtered_df["商品名称"].nunique()` (`app.py:213`): distinct non-null
product names. -/
def uniqueProducts (rows : List SalesRecord) : Nat :=
  (rows.filterMap (·.product)).dedup.length

/-- Summed `总金额` of the rows falling on one calendar day: the per-group
sum of the `groupby("日期_仅日期")["总金额"].sum()` at `app.py:216-218`. -/
def dailyAmount (rows : List SalesRecord) (d : Int) : ℚ :=
  ((rows.filter (fun r => dateOnlyOf r.date == d)).map (·.totalAmount)).sum

/-- The daily series of `app.py:216-221`: one `(day, summed 总金额)` pair per
distinct day present, ascending by day. -/
def dailySales (rows : List SalesRecord) : List (Int × ℚ) :=
  (((rows.map (fun r => dateOnlyOf r.date)).dedup).mergeSort (fun a b => decide (a ≤ b))).map
    (fun d => (d, dailyAmount rows d))

/-- Summed `总金额` of the rows in one category: the per-group sum of the
`groupby("产品类别")["总金额"].sum()` at `app.py:294-298`. -/
def categoryAmount (rows : List SalesRecord) (k : String) : ℚ :=
  ((rows.filter (fun r => r.category == k)).map (·.totalAmount)).sum

/-- The category breakdown of `app.py:294-298`: one `(category, sum)` pair per
distinct category present in the view. -/
def categorySales (rows : List SalesRecord) : List (String × ℚ) :=
  (rows.map (·.category)).dedup.map (fun k => (k, categoryAmount rows k))

/-- Summed `总金额` of the rows in one region: the per-group sum of the
`groupby("销售地区")["总金额"].sum()` at `app.py:335-339`. -/
def regionAmount (rows : List SalesRecord) (k : String) : ℚ :=
  ((rows.filter (fun r => r.region == k)).map (·.totalAmount)).sum

/-- The per-region sums before coordinate mapping (`city_sales` right after
the groupby at `app.py:335-339`). -/
def regionSales (rows : List SalesRecord) : List (String × ℚ) :=
  (rows.map (·.region)).dedup.map (fun k => (k, regionAmount rows k))

/-- The fixed `CITY_COORDS` table of `app.py:321-333`: city → (lat, lon). -/
def CITY_COORDS : List (String × ℚ × ℚ) :=
  [("北京", (399042/10000, 1164074/10000)),
   ("天津", (393434/10000, 1173616/10000)),
   ("上海", (312304/10000, 1214737/10000)),
   ("广州", (231291/10000, 1132644/10000)),
   ("深圳", (225431/10000, 1140579/10000)),
   ("杭州", (302741/10000, 1201551/10000)),
   ("南京", (320603/10000, 1187969/10000)),
   ("成都", (305728/10000, 1040668/10000)),
   ("重庆", (295630/10000, 1065516/10000)),
   ("武汉", (305928/10000, 1143055/10000)),
   ("西安", (343416/10000, 1089398/10000))]

/-- The city view of `app.py:335-343`: per-region sums augmented with
coordinates from `CITY_COORDS`; the `dropna(subset=["lat","lon"])` drops
every region absent from the table.  Entries are `(region, sum, lat, lon)`. -/
def citySales (rows : List SalesRecord) : List (String × ℚ × ℚ × ℚ) :=
  (regionSales rows).filterMap (fun p =>
    match CITY_COORDS.lookup p.1 with
    | some q => some (p.1, p.2, q.1, q.2)
    | none => none)

/-! ## Trend computation (`app.py:223-236`) -/

/-- pandas `DataFrame.tail(m)`: the last `min m (length)` entries. -/
def tailN (m : Nat) (l : List (Int × ℚ)) : List (Int × ℚ) :=
  l.drop (l.length - m)

/-- Embeds `recent_7 = daily_sales.tail(7)` (`app.py:223`). -/
def recentWindow (ds : List (Int × ℚ)) : List (Int × ℚ) := tailN 7 ds

/-- Embeds `prev_7 = daily_sales.tail(14).head(7)` (`app.py:225`). -/
def prevWindow (ds : List (Int × ℚ)) : List (Int × ℚ) := (tailN 14 ds).take 7

/-- Mean of a list of rationals (pandas `Series.mean`; only applied to
non-empty windows by the guarded code path). -/
def meanQ (l : List ℚ) : ℚ := l.sum / (l.length : ℚ)

/-- Embeds `trend_pct` of `app.py:223-233`: `0` when the series has at most 7
entries; otherwise the percentage change of the recent-window mean over the
previous-window mean, guarded to `0` unless the previous mean is positive. -/
def trendPct (ds : List (Int × ℚ)) : ℚ :=
  if 7 < ds.length then
    let prevAvg := meanQ ((prevWindow ds).map Prod.snd)
    let recentAvg := meanQ ((recentWindow ds).map Prod.snd)
    if 0 < prevAvg then (recentAvg - prevAvg) / prevAvg * 100 else 0
  else 0

/-- Trend direction label (`app.py:235`): up (`上涨`) iff `trend_pct >= 0`. -/
inductive TrendDir | up | down
deriving DecidableEq, Repr

/-- Embeds `trend_direction = "上涨" if trend_pct >= 0 else "下降"` (`app.py:235`). -/
def trendDirection (ds : List (Int × ℚ)) : TrendDir :=
  if 0 ≤ trendPct ds then TrendDir.up else TrendDir.down

/-- Embeds `trend_display_pct = abs(trend_pct)` (`app.py:236`). -/
def trendMagnitude (ds : List (Int × ℚ)) : ℚ := |trendPct ds|

/-! ## Schema normalization (`load_sales_data`, `app.py:24-46`)

The raw spreadsheet is modelled as an association list from column label to
column data.  For the date column the only facts the loader inspects are
its pandas dtype (datetime64 or object) and, for an object column, whether
every cell parses as a date, so a column is either a list of timestamps or
a list of raw strings. -/

/-- A pandas column as the loader sees it: either already of datetime64
dtype, or an object (string) column whose cells may or may not parse. -/
inductive RawColumn where
  | dtCol (vals : List Timestamp)
  | objCol (vals : List String)
deriving DecidableEq, Repr

/-- Embeds `pd.api.types.is_datetime64_any_dtype` (`app.py:44`). -/
def isDatetimeCol : RawColumn → Bool
  | .dtCol _ => true
  | .objCol _ => false

/-- The loaded table: column labels with their data, in column order. -/
abbrev RawTable := List (String × RawColumn)

/-- Column labels of a table, in order. -/
def labels (t : RawTable) : List String := t.map Prod.fst

/-- Strip leading and trailing whitespace from a character list
(Python `str.strip()`). -/
def trimChars (l : List Char) : List Char :=
  ((l.dropWhile Char.isWhitespace).reverse.dropWhile Char.isWhitespace).reverse

/-- True when the character is neither a double nor a single quote. -/
def notQuote (c : Char) : Bool := !(c == '"' || c == '\'')

/-- Embeds `c.replace('"', "").replace("'", "").strip()` (`app.py:29`): remove every
quote character, then trim whitespace at both ends. -/
def cleanLabel (s : String) : String :=
  String.mk (trimChars (s.toList.filter notQuote))

/-- The label-cleaning loop of `app.py:26-33` applied to every column. -/
def cleanCols (t : RawTable) : RawTable :=
  t.map (fun p => (cleanLabel p.1, p.2))

/-- Substring containment (`"地区" in str(c)`, `app.py:38`). -/
def containsSub (needle hay : String) : Bool :=
  decide (needle.toList <:+: hay.toList)

/-- Embeds `candidate_cols = [c for c in df.columns if "地区" in str(c)]`
(`app.py:38`). -/
def candidateCols (t : RawTable) : List String :=
  (labels t).filter (containsSub "地区")

/-- The region-column repair of `app.py:36-41`: when the canonical label
`销售地区` is absent and exactly one column label contains the marker
substring `地区`, rename that column to the canonical label; otherwise
leave the table unchanged. -/
def regionRepair (t : RawTable) : RawTable :=
  if (labels t).contains "销售地区" then t
  else
    match candidateCols t with
    | [cand] => t.map (fun p => if p.1 = cand then ("销售地区", p.2) else p)
    | _ => t

/-- Embeds `df["日期"] = <new column>`: replace the data of the column labelled
`name`. -/
def setCol (t : RawTable) (name : String) (col : RawColumn) : RawTable :=
  t.map (fun p => if p.1 = name then (name, col) else p)

/-- Embeds `pd.to_datetime` over a column (`app.py:45`), given a cell-level date
parser: a datetime column is returned as is; an object column is parsed
cell by cell and the whole conversion fails (pandas raises) when any cell
fails to parse. -/
def toDatetimeCol (parse : String → Option Timestamp) : RawColumn → Option RawColumn
  | .dtCol vs => some (.dtCol vs)
  | .objCol vs => (vs.mapM parse).map RawColumn.dtCol

/-- A fatal load-time failure: a missing column (Python `KeyError`) or an
unparseable date column (`pd.to_datetime` raising). -/
inductive LoadError where
  | keyError (col : String)
  | dateParseError
deriving DecidableEq, Repr

/-- Embeds `load_sales_data` (`app.py:24-46`), after the file read: clean the
column labels, apply the region repair, then coerce the `日期` column to
datetime unless it already is; a missing `日期` column or an unparseable
cell aborts the load.  Note the region repair never aborts: an unresolved
region column leaves the table as is and the load still succeeds. -/
def loadSalesData (parse : String → Option Timestamp) (t : RawTable) :
    Except LoadError RawTable :=
  let repaired := regionRepair (cleanCols t)
  match repaired.lookup "日期" with
  | none => .error (.keyError "日期")
  | some col =>
    if isDatetimeCol col then .ok repaired
    else
      match toDatetimeCol parse col with
      | some dcol => .ok (setCol repaired "日期" dcol)
      | none => .error .dateParseError

/-- The first downstream access to the region column after a successful
load: `raw_df["销售地区"]` at `app.py:83` (building the sidebar options);
a table without the canonical region column raises `KeyError` here. -/
def regionColumnAccess (t : RawTable) : Except LoadError RawColumn :=
  match t.lookup "销售地区" with
  | none => .error (.keyError "销售地区")
  | some col => .ok col

/-! ## Group-by summation lemmas -/

theorem sum_indicator_zero {κ : Type} [BEq κ] [LawfulBEq κ] (K : List κ) (a : κ) (q : ℚ)
    (ha : a ∉ K) :
    (K.map (fun key => if a == key then q else 0)).sum = 0 := by
  induction K with
  | nil => simp
  | cons b K ih =>
    have hab : (a == b) = false := by
      refine beq_eq_false_iff_ne.mpr ?_
      rintro rfl
      exact ha (List.mem_cons_self a K)
    have haK : a ∉ K := fun h => ha (List.mem_cons_of_mem _ h)
    simp [hab, ih haK]

theorem sum_indicator {κ : Type} [BEq κ] [LawfulBEq κ] (K : List κ) (a : κ) (q : ℚ)
    (hnd : K.Nodup) :
    (K.map (fun key => if a == key then q else 0)).sum = if a ∈ K then q else 0 := by
  induction K with
  | nil => simp
  | cons b K ih =>
    rcases List.nodup_cons.mp hnd with ⟨hb, hK⟩
    by_cases hab : a = b
    · subst hab
      simp [sum_indicator_zero K a q hb]
    · have : (a == b) = false := beq_eq_false_iff_ne.mpr hab
      simp [this, ih hK, hab]

theorem sum_fiber_filter {α κ : Type} [BEq κ] [LawfulBEq κ]
    (k : α → κ) (v : α → ℚ) (p : κ → Bool) :
    ∀ (l : List α) (K : List κ), K.Nodup → (∀ x ∈ l, k x ∈ K) →
      ((K.filter p).map (fun key => ((l.filter (fun x => k x == key)).map v).sum)).sum
        = ((l.filter (fun x => p (k x))).map v).sum := by
  intro l
  induction l with
  | nil => intro K _ _; simp
  | cons x xs ih =>
    intro K hnd hmem
    have hx : k x ∈ K := hmem x (List.mem_cons_self ..)
    have hxs : ∀ y ∈ xs, k y ∈ K := fun y hy => hmem y (List.mem_cons_of_mem _ hy)
    have hfib : ((K.filter p).map
        (fun key => ((List.filter (fun y => k y == key) (x :: xs)).map v).sum)).sum
        = ((K.filter p).map (fun key => (if k x == key then v x else 0)
            + ((xs.filter (fun y => k y == key)).map v).sum)).sum := by
      refine congrArg List.sum (List.map_congr_left ?_)
      intro key _
      by_cases h : (k x == key) = true
      · simp [List.filter_cons, h]
      · simp [List.filter_cons, h]
    rw [hfib, List.sum_map_add, sum_indicator (K.filter p) (k x) (v x) (hnd.filter p),
      ih K hnd hxs]
    have hmemf : k x ∈ K.filter p ↔ p (k x) = true := by
      simp [List.mem_filter, hx]
    by_cases hp : p (k x) = true
    · simp [List.filter_cons, hp, hmemf.mpr hp]
    · have : k x ∉ K.filter p := fun h => hp (hmemf.mp h)
      simp [List.filter_cons, hp, this]

theorem sum_filter_split {α : Type} (v : α → ℚ) (q : α → Bool) (l : List α) :
    (l.map v).sum = ((l.filter q).map v).sum + ((l.filter (fun x => !(q x))).map v).sum := by
  induction l with
  | nil => simp
  | cons x xs ih =>
    by_cases h : q x = true <;>
      simp [List.filter_cons, h, ih] <;> ring

theorem citySales_filterMap_sum (L : List (String × ℚ)) :
    ((L.filterMap (fun p => match CITY_COORDS.lookup p.1 with
        | some q => some (p.1, p.2, q.1, q.2)
        | none => none)).map (fun q => q.2.1)).sum
      = ((L.filter (fun p => (CITY_COORDS.lookup p.1).isSome)).map Prod.snd).sum := by
  induction L with
  | nil => rfl
  | cons p L ih =>
    cases h : CITY_COORDS.lookup p.1 <;>
      simp [List.filterMap_cons, List.filter_cons, h, ih]

theorem categorySales_conservation (rows : List SalesRecord) :
    ((categorySales rows).map Prod.snd).sum = totalSales rows := by
  have hmem : ∀ r ∈ rows, r.category ∈ (rows.map (·.category)).dedup := by
    intro r hr
    exact List.mem_dedup.mpr (List.mem_map_of_mem _ hr)
  have h := sum_fiber_filter (fun r : SalesRecord => r.category) (fun r => r.totalAmount)
    (fun _ => true) rows ((rows.map (·.category)).dedup)
    (List.nodup_dedup _) hmem
  simpa [categorySales, categoryAmount, totalSales, List.map_map, Function.comp] using h

theorem citySales_conservation (rows : List SalesRecord) :
    ((citySales rows).map (fun q => q.2.1)).sum
      + ((rows.filter (fun r => (CITY_COORDS.lookup r.region).isNone)).map
          (·.totalAmount)).sum
      = totalSales rows := by
  have hmem : ∀ r ∈ rows, r.region ∈ (rows.map (·.region)).dedup := by
    intro r hr
    exact List.mem_dedup.mpr (List.mem_map_of_mem _ hr)
  have hmap := sum_fiber_filter (fun r : SalesRecord => r.region) (fun r => r.totalAmount)
    (fun key => (CITY_COORDS.lookup key).isSome) rows ((rows.map (·.region)).dedup)
    (List.nodup_dedup _) hmem
  have hfm := citySales_filterMap_sum (regionSales rows)
  have hsplit := sum_filter_split (fun r : SalesRecord => r.totalAmount)
    (fun r => (CITY_COORDS.lookup r.region).isSome) rows
  have hneg : rows.filter (fun r => !(CITY_COORDS.lookup r.region).isSome)
      = rows.filter (fun r => (CITY_COORDS.lookup r.region).isNone) := by
    refine List.filter_congr ?_
    intro r _
    cases CITY_COORDS.lookup r.region <;> rfl
  have hcity : ((citySales rows).map (fun q => q.2.1)).sum
      = ((rows.filter (fun r => (CITY_COORDS.lookup r.region).isSome)).map
          (·.totalAmount)).sum := by
    rw [citySales, hfm, regionSales, List.filter_map, List.map_map]
    simpa [Function.comp, regionAmount] using hmap
  rw [hcity, ← hneg]
  exact (hsplit).symm

/-! ## Membership lemmas for the filter and the detail listing -/

theorem mem_sortByDateDesc (l : List SalesRecord) (r : SalesRecord) :
    r ∈ sortByDateDesc l ↔ r ∈ l :=
  (List.mergeSort_perm l _).mem_iff

theorem recordMask_eq_true (c : FilterCriteria) (r : SalesRecord) :
    recordMask c r = true ↔
      (c.dateStart ≤ dateOnlyOf r.date ∧ dateOnlyOf r.date ≤ c.dateEnd)
      ∧ r.category ∈ c.categories ∧ r.region ∈ c.regions := by
  simp [recordMask, and_assoc]

/-- C3: the category breakdown's values sum to the view total, and the city
breakdown's values (mapped regions only) plus the summed amounts of records
with unmapped regions also equal the view total. -/
theorem claim_C3_aggregation_conservation (rs : List SalesRecord) (c : FilterCriteria) :
    ((categorySales (filteredDf rs c)).map Prod.snd).sum = totalSales (filteredDf rs c)
    ∧ ((citySales (filteredDf rs c)).map (fun q => q.2.1)).sum
        + (((filteredDf rs c).filter
            (fun r => (CITY_COORDS.lookup r.region).isNone)).map (·.totalAmount)).sum
      = totalSales (filteredDf rs c) :=
  ⟨categorySales_conservation (filteredDf rs c), citySales_conservation (filteredDf rs c)⟩

/-! ## Trend lemmas -/

theorem trendPct_of_short (ds : List (Int × ℚ)) (h : ds.length ≤ 7) :
    trendPct ds = 0 := by
  simp only [trendPct]
  rw [if_neg (by omega)]

theorem trendPct_of_prev_mean_zero (ds : List (Int × ℚ))
    (h : meanQ ((prevWindow ds).map Prod.snd) = 0) :
    trendPct ds = 0 := by
  simp only [trendPct]
  split
  · rw [if_neg (by rw [h]; exact lt_irrefl 0)]
  · rfl

theorem trendPct_of_tie (ds : List (Int × ℚ))
    (h : meanQ ((recentWindow ds).map Prod.snd) = meanQ ((prevWindow ds).map Prod.snd)) :
    trendPct ds = 0 := by
  simp only [trendPct]
  split
  · split
    · rw [h, sub_self, zero_div, zero_mul]
    · rfl
  · rfl

/-- C6: a series of length at most 7 yields magnitude exactly 0 and direction
up; a zero previous-window mean yields 0 (and no division is attempted); a
tie between the two window means yields magnitude 0 and direction up. -/
theorem claim_C6_trend_guards (ds : List (Int × ℚ)) :
    (ds.length ≤ 7 → trendMagnitude ds = 0 ∧ trendDirection ds = TrendDir.up)
    ∧ (meanQ ((prevWindow ds).map Prod.snd) = 0 →
        trendMagnitude ds = 0 ∧ trendPct ds = 0)
    ∧ (meanQ ((recentWindow ds).map Prod.snd) = meanQ ((prevWindow ds).map Prod.snd) →
        trendMagnitude ds = 0 ∧ trendDirection ds = TrendDir.up) := by
  refine ⟨fun h => ?_, fun h => ?_, fun h => ?_⟩
  · rw [trendMagnitude, trendDirection, trendPct_of_short ds h]
    simp
  · rw [trendMagnitude, trendPct_of_prev_mean_zero ds h]
    simp
  · rw [trendMagnitude, trendDirection, trendPct_of_tie ds h]
    simp

/-- C7: an empty category set, an empty region set, or an inverted date range
each yield an empty filtered view, and an empty filtered view yields zero
totals, an empty daily series and empty breakdowns. -/
theorem claim_C7_empty_view_safety (rows : List SalesRecord) (c : FilterCriteria) :
    (c.categories = [] → filteredDf rows c = [])
    ∧ (c.regions = [] → filteredDf rows c = [])
    ∧ (c.dateEnd < c.dateStart → filteredDf rows c = [])
    ∧ (filteredDf rows c = [] →
        totalSales (filteredDf rows c) = 0
        ∧ dailySales (filteredDf rows c) = []
        ∧ categorySales (filteredDf rows c) = []
        ∧ citySales (filteredDf rows c) = []
        ∧ totalOrders (filteredDf rows c) = 0
        ∧ uniqueProducts (filteredDf rows c) = 0) := by
  refine ⟨fun h => ?_, fun h => ?_, fun h => ?_, fun h => ?_⟩
  · refine List.filter_eq_nil_iff.mpr fun r _ hr => ?_
    rw [recordMask_eq_true] at hr
    rw [h] at hr
    exact (List.not_mem_nil _) hr.2.1
  · refine List.filter_eq_nil_iff.mpr fun r _ hr => ?_
    rw [recordMask_eq_true] at hr
    rw [h] at hr
    exact (List.not_mem_nil _) hr.2.2
  · refine List.filter_eq_nil_iff.mpr fun r _ hr => ?_
    rw [recordMask_eq_true] at hr
    omega
  · rw [h]
    refine ⟨rfl, ?_, rfl, rfl, rfl, rfl⟩
    simp [dailySales]

end Supermarket

namespace Supermarket

/-! ## The trend windows as the spec words them (for comparison with the code) -/

/-- Modelled from the spec's words (§4.5): the previous trend window is "the
7 entries immediately preceding [the last 7] (i.e., positions `[n-14, n-7)`,
clipped to available history when `n < 14`)".  Stated only for comparison
with `prevWindow`, which embeds what the code computes. -/
def specPrevWindow (ds : List (Int × ℚ)) : List (Int × ℚ) :=
  (ds.take (ds.length - 7)).drop (ds.length - 14)

/-- Modelled from the spec's words (§4.5): the trend percentage compares the
mean of the last 7 entries against the mean of `specPrevWindow`, with 0 for
insufficient history or a zero baseline.  Stated only for comparison with
`trendPct`. -/
def specTrendPct (ds : List (Int × ℚ)) : ℚ :=
  if 7 < ds.length then
    let prevAvg := meanQ ((specPrevWindow ds).map Prod.snd)
    let recentAvg := meanQ ((recentWindow ds).map Prod.snd)
    if prevAvg = 0 then 0 else (recentAvg - prevAvg) / prevAvg * 100
  else 0

/-- A daily series of length 8: the claim places the previous window at the
single position `[8-14, 8-7) = [0, 1)`, while the code takes the first 7 of
the last 14 entries. -/
def dsC2 : List (Int × ℚ) :=
  [(0, 7), (1, 0), (2, 0), (3, 0), (4, 0), (5, 0), (6, 0), (7, 7)]

/-- C2 counterexample: on an 8-entry series the code's previous window is the
first 7 entries (overlapping the recent window), not the clipped window
`[n-14, n-7)` of the claim, and the resulting trend percentage differs from
the claim's comparison. -/
theorem claim_C2_counterexample :
    prevWindow dsC2 ≠ specPrevWindow dsC2
    ∧ (prevWindow dsC2).length = 7
    ∧ specPrevWindow dsC2 = [(0, 7)]
    ∧ trendPct dsC2 = 0
    ∧ specTrendPct dsC2 = -600 / 7 := by
  refine ⟨?_, ?_, ?_, ?_, ?_⟩
  · simp [dsC2, prevWindow, specPrevWindow, tailN]
  · simp [dsC2, prevWindow, tailN]
  · simp [dsC2, specPrevWindow]
  · norm_num [trendPct, prevWindow, recentWindow, tailN, meanQ, dsC2]
  · norm_num [specTrendPct, specPrevWindow, recentWindow, tailN, meanQ, dsC2]

/-- C2 amended: the recent window is the last 7 entries; the previous window
is the first 7 of the last 14 entries, which equals positions `[n-14, n-7)`
when `n ≥ 14` but is the first 7 entries (overlapping the recent window)
when `7 < n < 14`; the trend percentage compares the means of these two
windows whenever the previous mean is positive. -/
theorem claim_C2_amended (ds : List (Int × ℚ)) (h : 7 < ds.length) :
    recentWindow ds = ds.drop (ds.length - 7)
    ∧ (14 ≤ ds.length →
        prevWindow ds = (ds.take (ds.length - 7)).drop (ds.length - 14))
    ∧ (ds.length < 14 → prevWindow ds = ds.take 7)
    ∧ (0 < meanQ ((prevWindow ds).map Prod.snd) →
        trendPct ds = (meanQ ((recentWindow ds).map Prod.snd)
            - meanQ ((prevWindow ds).map Prod.snd))
          / meanQ ((prevWindow ds).map Prod.snd) * 100) := by
  refine ⟨rfl, fun h14 => ?_, fun h14 => ?_, fun hp => ?_⟩
  · rw [List.drop_take]
    simp only [prevWindow, tailN]
    congr 1
    omega
  · have h0 : ds.length - 14 = 0 := by omega
    simp only [prevWindow, tailN, h0, List.drop_zero]
  · simp only [trendPct]
    rw [if_pos h, if_pos hp]

/-- An 8-entry series of constant value 1, used to instantiate the amended
C2 statement. -/
def dsC2W : List (Int × ℚ) :=
  [(0, 1), (1, 1), (2, 1), (3, 1), (4, 1), (5, 1), (6, 1), (7, 1)]

theorem claim_C2_amended_witness :
    7 < dsC2W.length
    ∧ prevWindow dsC2W = dsC2W.take 7
    ∧ 0 < meanQ ((prevWindow dsC2W).map Prod.snd)
    ∧ trendPct dsC2W = (meanQ ((recentWindow dsC2W).map Prod.snd)
        - meanQ ((prevWindow dsC2W).map Prod.snd))
      / meanQ ((prevWindow dsC2W).map Prod.snd) * 100 := by
  have h7 : 7 < dsC2W.length := by norm_num [dsC2W]
  have hp : 0 < meanQ ((prevWindow dsC2W).map Prod.snd) := by
    norm_num [dsC2W, prevWindow, tailN, meanQ]
  exact ⟨h7, (claim_C2_amended dsC2W h7).2.2.1 (by norm_num [dsC2W]), hp,
    (claim_C2_amended dsC2W h7).2.2.2 hp⟩

/-! ## Load-time error behavior (C4, C5) -/

/-- A date parser for concrete tables: no textual cell parses as a date. -/
def noParse : String → Option Timestamp := fun _ => none

/-- Whether the date coercion of `app.py:44-45` succeeds: the `日期` column
exists after cleaning and repair, and either already has datetime dtype or
every cell parses. -/
def dateCoercible (parse : String → Option Timestamp) (t : RawTable) : Bool :=
  match (regionRepair (cleanCols t)).lookup "日期" with
  | none => false
  | some col => isDatetimeCol col || (toDatetimeCol parse col).isSome

/-- A table whose region column cannot be resolved — the canonical label is
absent and two column labels contain the marker substring — but whose date
column is well-typed. -/
def tC4 : RawTable :=
  [("日期", .dtCol [0]), ("华北地区", .objCol ["北京"]), ("华南地区", .objCol ["广州"])]

theorem lookup_eq_none_of_not_label (t : RawTable) (n : String)
    (h : (labels t).contains n = false) : t.lookup n = none := by
  induction t with
  | nil => rfl
  | cons p t ih =>
    simp only [labels, List.map_cons, List.contains_cons, Bool.or_eq_false_iff] at h
    simp only [List.lookup, h.1]
    exact ih h.2

/-- C4 counterexample: on `tC4` the single-candidate rename rule does not
apply (two candidates) and the canonical region column is absent, yet the
load succeeds and produces a record store. -/
theorem claim_C4_counterexample :
    (labels (regionRepair (cleanCols tC4))).contains "销售地区" = false
    ∧ (candidateCols (cleanCols tC4)).length = 2
    ∧ loadSalesData noParse tC4 = Except.ok tC4 :=
  ⟨by decide, by decide, rfl⟩

/-- C4 amended: the load fails exactly when the date column is missing after
normalization or cannot be coerced to dates; an unresolved region column
does not fail the load — the record store is produced and the fatal
`KeyError` surfaces only at the first downstream access to the region
column. -/
theorem claim_C4_amended (parse : String → Option Timestamp) (t : RawTable) :
    (loadSalesData parse t).isOk = dateCoercible parse t
    ∧ (∀ nt, loadSalesData parse t = Except.ok nt →
        (labels nt).contains "销售地区" = false →
        (regionColumnAccess nt).isOk = false) := by
  constructor
  · simp only [loadSalesData, dateCoercible]
    cases hl : (regionRepair (cleanCols t)).lookup "日期" with
    | none => rfl
    | some col =>
      by_cases hdt : isDatetimeCol col = true
      · simp [hdt, Except.isOk, Except.toBool]
      · simp only [Bool.not_eq_true] at hdt
        cases hc : toDatetimeCol parse col with
        | none => simp [hdt, hc, Except.isOk, Except.toBool]
        | some dcol => simp [hdt, hc, Except.isOk, Except.toBool]
  · intro nt hload hreg
    have hnone : nt.lookup "销售地区" = none := lookup_eq_none_of_not_label nt _ hreg
    simp [regionColumnAccess, hnone, Except.isOk, Except.toBool]

theorem claim_C4_amended_witness :
    (loadSalesData noParse tC4).isOk = true
    ∧ (regionColumnAccess tC4).isOk = false := by
  have h := claim_C4_amended noParse tC4
  refine ⟨?_, h.2 tC4 rfl (by decide)⟩
  rw [h.1]
  decide

end Supermarket

namespace Supermarket

/-- C5: after label cleaning, when the canonical region label is absent, a
unique marker-substring candidate is renamed — exactly that column — to the
canonical label, while zero or several candidates leave the table unchanged. -/
theorem claim_C5_region_repair_determinism (t : RawTable)
    (habs : (labels (cleanCols t)).contains "销售地区" = false) :
    (∀ cand, candidateCols (cleanCols t) = [cand] →
      regionRepair (cleanCols t)
        = (cleanCols t).map (fun p => if p.1 = cand then ("销售地区", p.2) else p))
    ∧ ((candidateCols (cleanCols t)).length ≠ 1 →
      regionRepair (cleanCols t) = cleanCols t) := by
  have hneg : ¬((labels (cleanCols t)).contains "销售地区" = true) := by
    rw [habs]
    exact Bool.false_ne_true
  constructor
  · intro cand hc
    unfold regionRepair
    rw [if_neg hneg, hc]
  · intro hlen
    unfold regionRepair
    rw [if_neg hneg]
    rcases hc : candidateCols (cleanCols t) with _ | ⟨a, _ | ⟨b, l⟩⟩
    · rfl
    · exact absurd (by simp [hc]) hlen
    · rfl

/-- A table with a single region-marker candidate column (and surrounding
whitespace to exercise label cleaning). -/
def t5a : RawTable := [("日期", .dtCol [0]), (" 地区 ", .objCol ["北京"])]

/-- A table with two region-marker candidate columns. -/
def t5b : RawTable :=
  [("日期", .dtCol [0]), ("华北地区", .objCol ["a"]), ("华南地区", .objCol ["b"])]

theorem claim_C5_witness :
    regionRepair (cleanCols t5a)
      = [("日期", RawColumn.dtCol [0]), ("销售地区", RawColumn.objCol ["北京"])]
    ∧ regionRepair (cleanCols t5b) = cleanCols t5b := by
  constructor
  · have h := (claim_C5_region_repair_determinism t5a (by decide)).1 "地区" (by decide)
    rw [h]
    decide
  · exact (claim_C5_region_repair_determinism t5b (by decide)).2 (by decide)

end Supermarket

namespace Supermarket

/-! ## Idempotence of label cleaning -/

theorem dropWhile_idem {α : Type} (p : α → Bool) (l : List α) :
    (l.dropWhile p).dropWhile p = l.dropWhile p := by
  induction l with
  | nil => rfl
  | cons x xs ih =>
    by_cases h : p x = true
    · simp only [List.dropWhile_cons, h, if_true]
      exact ih
    · simp only [List.dropWhile_cons, h, if_false]
      simp [List.dropWhile_cons, h]

theorem dropWhile_head_false {α : Type} (p : α → Bool) (l : List α) (a : α) (s : List α)
    (h : l.dropWhile p = a :: s) : p a = false := by
  induction l with
  | nil => simp at h
  | cons x xs ih =>
    by_cases hx : p x = true
    · rw [List.dropWhile_cons, if_pos hx] at h
      exact ih h
    · rw [List.dropWhile_cons, if_neg hx] at h
      cases h
      exact Bool.not_eq_true _ |>.mp hx

theorem mem_trimChars {l : List Char} {a : Char} (h : a ∈ trimChars l) : a ∈ l := by
  unfold trimChars at h
  rw [List.mem_reverse] at h
  have h1 := (List.dropWhile_sublist _).mem h
  rw [List.mem_reverse] at h1
  exact (List.dropWhile_sublist _).mem h1

theorem trimChars_idem (l : List Char) : trimChars (trimChars l) = trimChars l := by
  have hstep1 : (trimChars l).dropWhile Char.isWhitespace = trimChars l := by
    rcases hd : trimChars l with _ | ⟨a, s⟩
    · rfl
    · have hpre : trimChars l <+: l.dropWhile Char.isWhitespace := by
        have h1 : (l.dropWhile Char.isWhitespace).reverse.dropWhile Char.isWhitespace
            <:+ (l.dropWhile Char.isWhitespace).reverse := List.dropWhile_suffix _
        have h2 := List.reverse_prefix.mpr h1
        rw [List.reverse_reverse] at h2
        exact h2
      rw [hd] at hpre
      rcases hpre with ⟨r, hr⟩
      have ha : Char.isWhitespace a = false :=
        dropWhile_head_false _ l a (s ++ r) hr.symm
      rw [List.dropWhile_cons, if_neg (by rw [ha]; exact Bool.false_ne_true)]
  have hstep2 : ((trimChars l).reverse).dropWhile Char.isWhitespace = (trimChars l).reverse := by
    have hrr : (trimChars l).reverse
        = (l.dropWhile Char.isWhitespace).reverse.dropWhile Char.isWhitespace :=
      List.reverse_reverse _
    rw [hrr]
    exact dropWhile_idem _ _
  calc trimChars (trimChars l)
      = (((trimChars l).dropWhile Char.isWhitespace).reverse.dropWhile
          Char.isWhitespace).reverse := rfl
    _ = ((trimChars l).reverse.dropWhile Char.isWhitespace).reverse := by rw [hstep1]
    _ = ((trimChars l).reverse).reverse := by rw [hstep2]
    _ = trimChars l := List.reverse_reverse _

theorem cleanLabel_idem (s : String) : cleanLabel (cleanLabel s) = cleanLabel s := by
  unfold cleanLabel
  have htl : (String.mk (trimChars (s.toList.filter notQuote))).toList
      = trimChars (s.toList.filter notQuote) := rfl
  rw [htl]
  have hfil : (trimChars (s.toList.filter notQuote)).filter notQuote
      = trimChars (s.toList.filter notQuote) := by
    refine List.filter_eq_self.mpr fun a ha => ?_
    exact List.of_mem_filter (mem_trimChars ha)
  rw [hfil, trimChars_idem]

end Supermarket

namespace Supermarket

/-! ## Normalization idempotence (C8) -/

/-- Every column label of the table is already clean. -/
def labelFixed (t : RawTable) : Prop := ∀ p ∈ t, cleanLabel p.1 = p.1

theorem labelFixed_cleanCols (t : RawTable) : labelFixed (cleanCols t) := by
  intro p hp
  rcases List.mem_map.mp hp with ⟨q, _, rfl⟩
  exact cleanLabel_idem q.1

theorem cleanCols_of_labelFixed (t : RawTable) (h : labelFixed t) : cleanCols t = t := by
  unfold cleanCols
  conv_rhs => rw [← List.map_id t]
  refine List.map_congr_left fun p hp => ?_
  rw [h p hp]
  rfl

theorem labelFixed_regionRepair (t : RawTable) (h : labelFixed t) :
    labelFixed (regionRepair t) := by
  unfold regionRepair
  split
  · exact h
  · split
    · next cand heq =>
      intro p hp
      rcases List.mem_map.mp hp with ⟨q, hq, rfl⟩
      by_cases hc : q.1 = cand
      · rw [if_pos hc]
        exact (by decide : cleanLabel "销售地区" = "销售地区")
      · rw [if_neg hc]
        exact h q hq
    · exact h

theorem labelFixed_setCol (t : RawTable) (n : String) (c : RawColumn)
    (h : labelFixed t) (hn : cleanLabel n = n) : labelFixed (setCol t n c) := by
  intro p hp
  rcases List.mem_map.mp hp with ⟨q, hq, rfl⟩
  by_cases hc : q.1 = n
  · rw [if_pos hc]
    exact hn
  · rw [if_neg hc]
    exact h q hq

theorem labels_setCol (t : RawTable) (n : String) (c : RawColumn) :
    labels (setCol t n c) = labels t := by
  unfold labels setCol
  rw [List.map_map]
  refine List.map_congr_left fun p _ => ?_
  by_cases h : p.1 = n <;> simp [h]

theorem candidateCols_eq_of_labels {t₁ t₂ : RawTable} (h : labels t₁ = labels t₂) :
    candidateCols t₁ = candidateCols t₂ := by
  unfold candidateCols
  rw [h]

theorem regionRepair_of_labels_eq (u t' : RawTable)
    (h : labels t' = labels (regionRepair u)) : regionRepair t' = t' := by
  by_cases hc : (labels u).contains "销售地区" = true
  · have hru : regionRepair u = u := by
      unfold regionRepair
      rw [if_pos hc]
    rw [hru] at h
    unfold regionRepair
    rw [if_pos (by rw [h]; exact hc)]
  · rcases hcand : candidateCols u with _ | ⟨a, _ | ⟨b, rest⟩⟩
    · have hru : regionRepair u = u := by
        unfold regionRepair
        rw [if_neg hc, hcand]
      rw [hru] at h
      unfold regionRepair
      rw [if_neg (by rw [h]; exact hc), candidateCols_eq_of_labels h, hcand]
    · have hru : regionRepair u
          = u.map (fun p => if p.1 = a then ("销售地区", p.2) else p) := by
        unfold regionRepair
        rw [if_neg hc, hcand]
      have hmema : a ∈ labels u := by
        have : a ∈ candidateCols u := by
          rw [hcand]
          exact List.mem_cons_self ..
        exact List.mem_of_mem_filter this
      have hcanon : "销售地区" ∈ labels t' := by
        rw [h, hru]
        unfold labels
        rw [List.map_map]
        rcases List.mem_map.mp hmema with ⟨p, hp, hpa⟩
        refine List.mem_map.mpr ⟨p, hp, ?_⟩
        simp [Function.comp, hpa]
      unfold regionRepair
      rw [if_pos (List.elem_iff.mpr hcanon)]
    · have hru : regionRepair u = u := by
        unfold regionRepair
        rw [if_neg hc, hcand]
      rw [hru] at h
      unfold regionRepair
      rw [if_neg (by rw [h]; exact hc), candidateCols_eq_of_labels h, hcand]

theorem lookup_setCol_of_lookup (t : RawTable) (n : String) (c c' : RawColumn)
    (h : t.lookup n = some c) : (setCol t n c').lookup n = some c' := by
  induction t with
  | nil => simp [List.lookup] at h
  | cons p t ih =>
    rw [show setCol (p :: t) n c'
        = (if p.1 = n then (n, c') else p) :: setCol t n c' from rfl]
    by_cases hp : p.1 = n
    · rw [if_pos hp]
      simp [List.lookup]
    · rw [if_neg hp]
      have hb : (n == p.1) = false := beq_eq_false_iff_ne.mpr (fun e => hp e.symm)
      simp only [List.lookup, hb] at h ⊢
      exact ih h

end Supermarket

namespace Supermarket

theorem load_output_fixed (parse : String → Option Timestamp) (t nt : RawTable)
    (h : loadSalesData parse t = Except.ok nt) :
    cleanCols nt = nt ∧ regionRepair nt = nt
      ∧ ∃ vs, nt.lookup "日期" = some (RawColumn.dtCol vs) := by
  have hfix : labelFixed (regionRepair (cleanCols t)) :=
    labelFixed_regionRepair _ (labelFixed_cleanCols t)
  simp only [loadSalesData] at h
  split at h
  · exact absurd h (by simp)
  · next col hl =>
    split at h
    · next hdt =>
      injection h with hnt
      subst hnt
      refine ⟨cleanCols_of_labelFixed _ hfix,
        regionRepair_of_labels_eq (cleanCols t) _ rfl, ?_⟩
      cases col with
      | dtCol vs => exact ⟨vs, hl⟩
      | objCol vs => simp [isDatetimeCol] at hdt
    · next hdt =>
      split at h
      · next dcol hc =>
        injection h with hnt
        subst hnt
        refine ⟨?_, ?_, ?_⟩
        · apply cleanCols_of_labelFixed
          exact labelFixed_setCol _ _ _ hfix (by decide : cleanLabel "日期" = "日期")
        · apply regionRepair_of_labels_eq (cleanCols t)
          rw [labels_setCol]
        · have hlk := lookup_setCol_of_lookup _ _ _ dcol hl
          cases col with
          | dtCol vs =>
            have hd : dcol = RawColumn.dtCol vs := by
              simp only [toDatetimeCol] at hc
              exact (Option.some.inj hc).symm
            exact ⟨vs, hd ▸ hlk⟩
          | objCol vs =>
            rcases hm : vs.mapM parse with _ | ws
            · simp only [toDatetimeCol] at hc
              rw [hm] at hc
              simp at hc
            · simp only [toDatetimeCol, hm, Option.map_some'] at hc
              exact ⟨ws, (Option.some.inj hc) ▸ hlk⟩
      · exact absurd h (by simp)

/-- C8: the schema normalizer is idempotent — re-normalizing the record set
produced by a successful load leaves the column labels and the typed date
column (type and values) unchanged, returning the very same table. -/
theorem claim_C8_normalization_idempotence (parse : String → Option Timestamp)
    (t nt : RawTable) (h : loadSalesData parse t = Except.ok nt) :
    loadSalesData parse nt = Except.ok nt := by
  obtain ⟨hclean, hrep, vs, hlook⟩ := load_output_fixed parse t nt h
  simp [loadSalesData, hclean, hrep, hlook, isDatetimeCol]

/-- A raw table with a quoted, padded date label and textual date cells. -/
def tC8 : RawTable := [(" \"日期\" ", .objCol ["d0"]), ("销售地区", .objCol ["北京"])]

/-- The parser used for `tC8`: every cell parses to timestamp 0. -/
def parseC8 : String → Option Timestamp := fun _ => some 0

/-- The normalized form of `tC8`. -/
def ntC8 : RawTable := [("日期", .dtCol [0]), ("销售地区", .objCol ["北京"])]

theorem claim_C8_witness :
    loadSalesData parseC8 tC8 = Except.ok ntC8
    ∧ loadSalesData parseC8 ntC8 = Except.ok ntC8 :=
  ⟨rfl, claim_C8_normalization_idempotence parseC8 tC8 ntC8 rfl⟩

end Supermarket

namespace Supermarket

/-! ## Determinism (C9) and the null-product search guard (C10) -/

/-- All outputs of one filter-and-aggregate pass (`app.py:90-392`):
the filtered view, the overview totals, the daily series with its trend
metric, both breakdowns, and the searched detail listing. -/
structure PipelineOutput where
  view : List SalesRecord
  total : ℚ
  orderCount : Nat
  productCount : Nat
  daily : List (Int × ℚ)
  trendPercent : ℚ
  trendDir : TrendDir
  byCategory : List (String × ℚ)
  byCity : List (String × ℚ × ℚ × ℚ)
  listing : List SalesRecord
deriving DecidableEq, Repr

/-- One full recomputation pass over a record set and criteria. -/
def runPipeline (rows : List SalesRecord) (c : FilterCriteria) : PipelineOutput :=
  { view := filteredDf rows c
    total := totalSales (filteredDf rows c)
    orderCount := totalOrders (filteredDf rows c)
    productCount := uniqueProducts (filteredDf rows c)
    daily := dailySales (filteredDf rows c)
    trendPercent := trendPct (dailySales (filteredDf rows c))
    trendDir := trendDirection (dailySales (filteredDf rows c))
    byCategory := categorySales (filteredDf rows c)
    byCity := citySales (filteredDf rows c)
    listing := ordersView rows c }

/-- C9: the filter-and-aggregate pass is a pure function of the record set
and the criteria — equal inputs give equal outputs in every component. -/
theorem claim_C9_pipeline_deterministic (rows₁ rows₂ : List SalesRecord)
    (c₁ c₂ : FilterCriteria) (hr : rows₁ = rows₂) (hc : c₁ = c₂) :
    runPipeline rows₁ c₁ = runPipeline rows₂ c₂ := by
  subst hr
  subst hc
  rfl

theorem claim_C9_witness :
    runPipeline [] ⟨0, 0, [], [], ""⟩ = runPipeline [] ⟨0, 0, [], [], ""⟩ :=
  claim_C9_pipeline_deterministic [] [] ⟨0, 0, [], [], ""⟩ ⟨0, 0, [], [], ""⟩ rfl rfl

/-- A record with a missing product-name cell. -/
def rC10 : SalesRecord :=
  { date := 0, category := "水果", product := none, region := "北京",
    quantity := 1, unitPrice := 1, totalAmount := 1 }

/-- Criteria matching `rC10` with a non-empty search keyword. -/
def cC10 : FilterCriteria := ⟨0, 0, ["水果"], ["北京"], "a"⟩

/-- The same criteria with an empty search keyword. -/
def cC10e : FilterCriteria := ⟨0, 0, ["水果"], ["北京"], ""⟩

/-! ## Witnesses for the trend guards and empty-view safety -/

/-- A one-entry daily series with a positive value. -/
def ds6a : List (Int × ℚ) := [(0, 5)]

/-- A one-entry daily series with value zero. -/
def ds6b : List (Int × ℚ) := [(0, 0)]

theorem claim_C6_witness :
    (ds6a.length ≤ 7 ∧ trendMagnitude ds6a = 0 ∧ trendDirection ds6a = TrendDir.up)
    ∧ (meanQ ((prevWindow ds6b).map Prod.snd) = 0 ∧ trendPct ds6b = 0) := by
  have h1 := (claim_C6_trend_guards ds6a).1 (by norm_num [ds6a])
  have hz : meanQ ((prevWindow ds6b).map Prod.snd) = 0 := by
    norm_num [ds6b, prevWindow, tailN, meanQ]
  have h2 := (claim_C6_trend_guards ds6b).2.1 hz
  exact ⟨⟨by norm_num [ds6a], h1.1, h1.2⟩, ⟨hz, h2.2⟩⟩

/-- A record used to instantiate the empty-view safety claim. -/
def r7 : SalesRecord :=
  { date := 0, category := "水果", product := some "苹果", region := "北京",
    quantity := 2, unitPrice := 5, totalAmount := 10 }

/-- Criteria with an empty category selection. -/
def c7empty : FilterCriteria := ⟨0, 10, [], ["北京"], ""⟩

theorem claim_C7_witness :
    filteredDf [r7] c7empty = []
    ∧ totalSales (filteredDf [r7] c7empty) = 0
    ∧ dailySales (filteredDf [r7] c7empty) = []
    ∧ categorySales (filteredDf [r7] c7empty) = []
    ∧ citySales (filteredDf [r7] c7empty) = [] := by
  have h := claim_C7_empty_view_safety [r7] c7empty
  have he : filteredDf [r7] c7empty = [] := h.1 rfl
  have ha := h.2.2.2 he
  exact ⟨he, ha.1, ha.2.1, ha.2.2.1, ha.2.2.2.1⟩

end Supermarket

namespace Supermarket

/-! ## The detail-listing search under pandas' actual regex semantics

`Series.str.contains(search_keyword, case=False, na=False)` (`app.py:384`)
defaults to `regex=True`: the keyword is handed to Python's external `re`
module.  Compiling the keyword can fail (`re.error`, which propagates out
of the listing computation), and a compiled pattern is a predicate tested
against every non-null product name (`na=False` maps missing cells to
no-match).  The engine itself is not code of this repository, so it enters
the embedding as the `compile` parameter. -/

/-- A keyword that is not a valid regular expression: `re.error` raised by
pattern compilation inside `str.contains`. -/
inductive SearchError where
  | regexError
deriving DecidableEq, Repr

/-- The detail listing of `app.py:380-385` with pandas' default
`regex=True` search semantics: sort the filtered view by timestamp
descending; with a non-empty keyword, compile it with the external regex
engine — failure propagates (`re.error`, no listing) and success filters
the rows by matching the pattern against each present product name, a
missing product name never matching (`na=False`).  An empty keyword skips
the search (`if search_keyword:`). -/
def ordersViewRe (compile : String → Option (String → Bool))
    (rows : List SalesRecord) (c : FilterCriteria) :
    Except SearchError (List SalesRecord) :=
  let sorted := sortByDateDesc (filteredDf rows c)
  if c.searchText ≠ "" then
    match compile c.searchText with
    | none => .error .regexError
    | some p =>
      .ok (sorted.filter (fun r => match r.product with
        | none => false
        | some s => p s))
  else .ok sorted

/-- Whether the text contains, anywhere, the character `a`, then any
single non-newline character, then the character `c` — the documented
`re.search` behavior of a three-character pattern `a.c` whose first and
last characters are ordinary. -/
def dotTripleSearch (a c : Char) : List Char → Bool
  | x :: y :: z :: rest =>
      (x == a && !(y == '\n') && z == c) || dotTripleSearch a c (y :: z :: rest)
  | _ => false

/-- One recorded behavior of the external Python regex engine, used to
instantiate the `compile` parameter at the three keywords the C1/C10
corrections evaluate: the pattern `苹.果` compiles, its `.` matching any
non-newline character; the pattern `a` compiles to a case-insensitive
search for the letter a; the pattern `(` fails to compile (`re.error`:
missing closing parenthesis), as does — in this sample — every keyword
not recorded here, which no theorem relies on. -/
def rePythonSample : String → Option (String → Bool) := fun pat =>
  if pat = "苹.果" then some (fun s => dotTripleSearch '苹' '果' s.toList)
  else if pat = "a" then some (fun s => s.toList.any (fun ch => ch == 'a' || ch == 'A'))
  else none

/-- A record whose product name `苹X果` is matched by the regex `苹.果` but
does not contain it as a literal substring. -/
def rQ : SalesRecord :=
  { date := 0, category := "水果", product := some "苹X果", region := "北京",
    quantity := 1, unitPrice := 1, totalAmount := 1 }

/-- Criteria matching `rQ` whose search keyword is the regex `苹.果`. -/
def cQ : FilterCriteria := ⟨0, 0, ["水果"], ["北京"], "苹.果"⟩

/-- C1 counterexample: under the program's `regex=True` search the record
`rQ` is included in the detail listing for the non-empty keyword `苹.果`,
although the keyword is not a case-insensitive literal substring of the
product name — the claimed inclusion-iff-substring equivalence fails. -/
theorem claim_C1_counterexample :
    ordersViewRe rePythonSample [rQ] cQ = Except.ok [rQ]
    ∧ cQ.searchText ≠ ""
    ∧ rQ.product = some "苹X果"
    ∧ strContainsCI rQ.product cQ.searchText = false := by
  have hflt : filteredDf [rQ] cQ = [rQ] := by decide
  have hsort : sortByDateDesc [rQ] = [rQ] := by
    simp [sortByDateDesc]
  refine ⟨?_, by decide, rfl, by decide⟩
  simp only [ordersViewRe, hflt, hsort]
  rw [if_pos (by decide)]
  have hcmp : rePythonSample cQ.searchText
      = some (fun s => dotTripleSearch '苹' '果' s.toList) := by
    simp [rePythonSample, cQ]
  rw [hcmp]
  simp only [Except.ok.injEq]
  rw [List.filter_cons]
  simp [rQ, dotTripleSearch]

/-- C1 amended: under the program's `regex=True` search, whenever the
keyword is accepted by the regex engine (so a listing is produced at all),
a record is in the listing iff it is a stored record passing the
date/category/region mask and — as an independent further restriction —
the keyword is empty or the compiled pattern matches its present product
name; metacharacter keywords follow regex semantics rather than literal
substring containment, and a rejected keyword produces no listing. -/
theorem claim_C1_amended (compile : String → Option (String → Bool))
    (rows : List SalesRecord) (c : FilterCriteria) (r : SalesRecord)
    (vw : List SalesRecord) (h : ordersViewRe compile rows c = Except.ok vw) :
    r ∈ vw ↔
      r ∈ rows
      ∧ (c.dateStart ≤ dateOnlyOf r.date ∧ dateOnlyOf r.date ≤ c.dateEnd)
      ∧ r.category ∈ c.categories
      ∧ r.region ∈ c.regions
      ∧ (c.searchText = ""
          ∨ ∃ s p, r.product = some s ∧ compile c.searchText = some p ∧ p s = true) := by
  by_cases hs : c.searchText = ""
  · simp only [ordersViewRe] at h
    rw [if_neg (by simp [hs])] at h
    injection h with hvw
    subst hvw
    simp only [mem_sortByDateDesc, filteredDf, List.mem_filter, recordMask_eq_true, hs]
    tauto
  · simp only [ordersViewRe] at h
    rw [if_pos hs] at h
    split at h
    · exact Except.noConfusion h
    · next p hcmp =>
      injection h with hvw
      subst hvw
      simp only [List.mem_filter, mem_sortByDateDesc, filteredDf, recordMask_eq_true]
      constructor
      · rintro ⟨⟨hmem, hdate, hcat, hreg⟩, hmatch⟩
        refine ⟨hmem, hdate, hcat, hreg, Or.inr ?_⟩
        rcases hp : r.product with _ | s
        · rw [hp] at hmatch
          exact absurd hmatch (by simp)
        · rw [hp] at hmatch
          exact ⟨s, p, rfl, hcmp, hmatch⟩
      · rintro ⟨hmem, hdate, hcat, hreg, he | ⟨s, p', hp, hc', hps⟩⟩
        · exact absurd he hs
        · refine ⟨⟨hmem, hdate, hcat, hreg⟩, ?_⟩
          rw [hp]
          have hpp : p' = p := Option.some.inj (hc'.symm.trans hcmp)
          rw [hpp] at hps
          exact hps

/-- A record matched by the criteria below, with product name `Apple`. -/
def rC1w : SalesRecord :=
  { date := 0, category := "水果", product := some "Apple", region := "北京",
    quantity := 1, unitPrice := 1, totalAmount := 1 }

/-- Criteria matching `rC1w` with the valid search keyword `a`. -/
def cC1w : FilterCriteria := ⟨0, 0, ["水果"], ["北京"], "a"⟩

theorem claim_C1_amended_witness :
    ordersViewRe rePythonSample [rC1w] cC1w = Except.ok [rC1w]
    ∧ rC1w ∈ ([rC1w] : List SalesRecord) := by
  have hflt : filteredDf [rC1w] cC1w = [rC1w] := by decide
  have hsort : sortByDateDesc [rC1w] = [rC1w] := by
    simp [sortByDateDesc]
  have hcmp : rePythonSample cC1w.searchText
      = some (fun s => s.toList.any (fun ch => ch == 'a' || ch == 'A')) := by
    simp [rePythonSample, cC1w]
  have hok : ordersViewRe rePythonSample [rC1w] cC1w = Except.ok [rC1w] := by
    simp only [ordersViewRe, hflt, hsort]
    rw [if_pos (by decide), hcmp]
    simp only [Except.ok.injEq]
    rw [List.filter_cons]
    simp [rC1w]
  refine ⟨hok, ?_⟩
  exact (claim_C1_amended rePythonSample [rC1w] cC1w rC1w [rC1w] hok).mpr
    ⟨List.mem_cons_self .., by decide, by decide, by decide,
      Or.inr ⟨"Apple", _, rfl, hcmp, by decide⟩⟩

/-- Criteria whose search keyword `(` is an invalid regular expression. -/
def cC10bad : FilterCriteria := ⟨0, 0, ["水果"], ["北京"], "("⟩

/-- C10 counterexample: the non-empty keyword `(` is an invalid regex, so
the program's search raises `re.error` instead of producing a listing that
excludes the null-product record — contradicting the claim's "rather than
raising an error". -/
theorem claim_C10_counterexample :
    cC10bad.searchText ≠ ""
    ∧ rC10.product = none
    ∧ rePythonSample cC10bad.searchText = none
    ∧ (ordersViewRe rePythonSample [rC10] cC10bad).isOk = false := by
  refine ⟨by decide, rfl, by simp [rePythonSample, cC10bad], ?_⟩
  simp only [ordersViewRe]
  rw [if_pos (by decide), show rePythonSample cC10bad.searchText = none from
    by simp [rePythonSample, cC10bad]]
  rfl

/-- C10 amended: when the non-empty search keyword compiles as a regex, a
record with a missing product-name cell is excluded from the produced
listing (never a match); a non-empty keyword rejected by the engine raises
`re.error` instead of producing any listing; an empty keyword skips the
search entirely. -/
theorem claim_C10_amended (compile : String → Option (String → Bool))
    (rows : List SalesRecord) (c : FilterCriteria) (r : SalesRecord) :
    (c.searchText ≠ "" → r.product = none →
      ∀ vw, ordersViewRe compile rows c = Except.ok vw → r ∉ vw)
    ∧ (c.searchText ≠ "" → compile c.searchText = none →
        (ordersViewRe compile rows c).isOk = false)
    ∧ (c.searchText = "" →
        ordersViewRe compile rows c = Except.ok (sortByDateDesc (filteredDf rows c))) := by
  refine ⟨fun hs hp vw h hmem => ?_, fun hs hn => ?_, fun hs => ?_⟩
  · simp only [ordersViewRe] at h
    rw [if_pos hs] at h
    split at h
    · exact Except.noConfusion h
    · next p hcmp =>
      injection h with hvw
      subst hvw
      have hct := (List.mem_filter.mp hmem).2
      rw [hp] at hct
      exact absurd hct (by simp)
  · simp only [ordersViewRe]
    rw [if_pos hs, hn]
    rfl
  · simp only [ordersViewRe]
    rw [if_neg (by simp [hs])]

theorem claim_C10_amended_witness :
    (ordersViewRe rePythonSample [rC10] cC10 = Except.ok ([] : List SalesRecord)
      ∧ rC10 ∉ ([] : List SalesRecord))
    ∧ (ordersViewRe rePythonSample [rC10] cC10bad).isOk = false
    ∧ ordersViewRe rePythonSample [rC10] cC10e
        = Except.ok (sortByDateDesc (filteredDf [rC10] cC10e)) := by
  have hflt : filteredDf [rC10] cC10 = [rC10] := by decide
  have hsort : sortByDateDesc [rC10] = [rC10] := by
    simp [sortByDateDesc]
  have hcmp : rePythonSample cC10.searchText
      = some (fun s => s.toList.any (fun ch => ch == 'a' || ch == 'A')) := by
    simp [rePythonSample, cC10]
  have hok : ordersViewRe rePythonSample [rC10] cC10 = Except.ok [] := by
    simp only [ordersViewRe, hflt, hsort]
    rw [if_pos (by decide), hcmp]
    simp only [Except.ok.injEq]
    rw [List.filter_cons]
    simp [rC10]
  refine ⟨⟨hok, ?_⟩, ?_, ?_⟩
  · exact (claim_C10_amended rePythonSample [rC10] cC10 rC10).1 (by decide) rfl [] hok
  · exact (claim_C10_amended rePythonSample [rC10] cC10bad rC10).2.1 (by decide)
      (by simp [rePythonSample, cC10bad])
  · exact (claim_C10_amended rePythonSample [rC10] cC10e rC10).2.2 rfl

end Supermarket
